import Mathlib

/-!
Verification of the shell emulator (`shell_emulator.py`): a POSIX-like shell
over an in-memory virtual filesystem (VFS).

The Python program stores every VFS node as an untyped dict: a directory is a
dict mapping child names to nodes, and a file is the dict
`{'type': 'file', 'data': bytes}`.  We embed Python values shallowly as the
inductive type `PyVal`, with dicts as insertion-ordered association lists
(Python dicts preserve insertion order, and assignment to an existing key
keeps its position).  Out-of-scope collaborators (shlex tokenization,
environment substitution, prompt rendering) are abstracted as function
parameters, matching the spec's interface boundary.
-/

set_option autoImplicit false

namespace ShellEmu

/-- Python `s.split('/')`: split on every single slash; the empty string
splits to `[""]`, and adjacent slashes produce empty segments. -/
def splitSlashGo : List Char → List Char → List String
  | acc, [] => [String.mk acc.reverse]
  | acc, c :: rest =>
    if c = '/' then String.mk acc.reverse :: splitSlashGo [] rest
    else splitSlashGo (c :: acc) rest

/-- Python `path.split('/')`. -/
def pySplitSlash (s : String) : List String := splitSlashGo [] s.toList

/-- Python `s.startswith('/')`. -/
def startsWithSlash (s : String) : Bool :=
  match s.toList with
  | '/' :: _ => true
  | _ => false

/-- Python `s.startswith('#')`. -/
def startsWithHash (s : String) : Bool :=
  match s.toList with
  | '#' :: _ => true
  | _ => false

/-- Python `s.strip()`: remove leading and trailing whitespace. -/
def pyStrip (s : String) : String :=
  String.mk (((s.toList.dropWhile Char.isWhitespace).reverse.dropWhile
    Char.isWhitespace).reverse)

/-- A Python value as used by the VFS: a dict (ordered association list),
a string, or a bytes payload (modelled as a list of byte values). -/
inductive PyVal where
  | dict : List (String × PyVal) → PyVal
  | str : String → PyVal
  | bytes : List Nat → PyVal

/-- Python `key in d` / `d[key]` on a dict's entry list: first entry wins
(keys are unique anyway, since insertion overwrites in place). -/
def dlookup : List (String × PyVal) → String → Option PyVal
  | [], _ => none
  | (k, v) :: rest, key => if k = key then some v else dlookup rest key

/-- Python `d[key] = val`: overwrite in place if present (keeping the entry's
position), otherwise append at the end (insertion order). -/
def dinsert : List (String × PyVal) → String → PyVal → List (String × PyVal)
  | [], key, val => [(key, val)]
  | (k, v) :: rest, key, val =>
    if k = key then (key, val) :: rest else (k, v) :: dinsert rest key val

/-- Python `isinstance(v, dict)`. -/
def PyVal.isDict : PyVal → Bool
  | PyVal.dict _ => true
  | _ => false

/-- The file-node test used by `VFS.cd` and `VFS.ls`:
`'type' in node and node['type'] == 'file'`.  (On a non-dict the code never
asks this; the arm is `false`.) -/
def isFileNode : PyVal → Bool
  | PyVal.dict es =>
    match dlookup es "type" with
    | some (PyVal.str s) => s = "file"
    | _ => false
  | _ => false

/-- Python `'type' in value`, the (different!) file test used by
`find_recursive`. -/
def hasTypeKey : PyVal → Bool
  | PyVal.dict es => (dlookup es "type").isSome
  | _ => false

/-- `VFS.__init__`: `self.root = {}` (and `self.cwd = []`). -/
def emptyRoot : PyVal := PyVal.dict []

/-- The `setdefault` walk of `VFS.add_dir`: for each segment, descend into the
existing child or create an empty dict.  (Python raises `AttributeError` if a
walked-through value is not a dict; that unreachable-by-intent case is
modelled as leaving the value unchanged.) -/
def addDirGo : PyVal → List String → PyVal
  | v, [] => v
  | PyVal.dict es, p :: ps =>
    let child := match dlookup es p with
      | some c => c
      | none => PyVal.dict []
    PyVal.dict (dinsert es p (addDirGo child ps))
  | v, _ :: _ => v

/-- `VFS.add_dir(path)`: `parts = path.split('/')`, then the setdefault walk. -/
def add_dir (root : PyVal) (path : String) : PyVal :=
  addDirGo root (pySplitSlash path)

/-- The file node built by `VFS.add_file`: `{'type': 'file', 'data': data}`. -/
def mkFileNode (data : List Nat) : PyVal :=
  PyVal.dict [("type", PyVal.str "file"), ("data", PyVal.bytes data)]

/-- "Files have no children": every value stored in this entry list is a
non-dict.  The file nodes written by `VFS.add_file` are exactly
`{'type': 'file', 'data': bytes}`, whose two values (a string and a bytes
payload) are both non-dicts, so resolution can never step from them into a
further node. -/
def allValuesNonDict : List (String × PyVal) → Bool
  | [] => true
  | (_, v) :: rest => !v.isDict && allValuesNonDict rest

/-- The walk of `VFS.add_file`: setdefault over `parts[:-1]`, then
`cur[parts[-1]] = {'type': 'file', 'data': data}`. -/
def addFileGo : PyVal → List String → List Nat → PyVal
  | PyVal.dict es, [p], data => PyVal.dict (dinsert es p (mkFileNode data))
  | PyVal.dict es, p :: q :: ps, data =>
    let child := match dlookup es p with
      | some c => c
      | none => PyVal.dict []
    PyVal.dict (dinsert es p (addFileGo child (q :: ps) data))
  | v, _, _ => v

/-- `VFS.add_file(path, data)`: `parts = path.split('/')`, walk `parts[:-1]`,
assign the file node at `parts[-1]`.  (`path.split('/')` is never empty, so
the walk always has a last segment.) -/
def add_file (root : PyVal) (path : String) (data : List Nat) : PyVal :=
  addFileGo root (pySplitSlash path) data

/-- Python `name.endswith('/')`. -/
def endsWithSlash (s : String) : Bool :=
  match s.toList.reverse with
  | '/' :: _ => true
  | _ => false

/-- Python `name.rstrip('/')`: remove every trailing `'/'`. -/
def rstripSlashes (s : String) : String :=
  String.mk ((s.toList.reverse.dropWhile (fun c => c = '/')).reverse)

/-- Every value of this entry list is itself a dict.  This holds at every
level the loader ever makes the working directory point into: directory
entries are dicts, and file entries are the (dict) nodes of `add_file`. -/
def allValuesAreDicts : List (String × PyVal) → Bool
  | [] => true
  | (_, v) :: rest => v.isDict && allValuesAreDicts rest

/-- `load_vfs_from_zip`, driven by the archive's entry list (name, content
bytes after the loader's best-effort decode, which is out of scope): a name
ending in `/` adds a directory (with the trailing slashes stripped), any
other name adds a file. -/
def load_vfs_from_zip (entries : List (String × List Nat)) : PyVal :=
  entries.foldl
    (fun v e =>
      if endsWithSlash e.1 then add_dir v (rstripSlashes e.1)
      else add_file v e.1 e.2)
    emptyRoot

/-- `VFS.resolve` on a segment list (the only form the program uses: it is
called with `self.cwd` or a normalized candidate list).  Segments `''` and
`'.'` are skipped; otherwise the segment must be a key of the current dict
whose value is again a dict (`isinstance(cur[p], dict)`), else `None`.
The non-dict arm for `cur` is unreachable from the dict root. -/
def pyResolve : PyVal → List String → Option PyVal
  | cur, [] => some cur
  | cur, p :: ps =>
    if p = "" ∨ p = "." then pyResolve cur ps
    else
      match cur with
      | PyVal.dict es =>
        match dlookup es p with
        | some v => if v.isDict then pyResolve v ps else none
        | none => none
      | _ => none

/-- Python `path.strip('/')`: remove every leading and trailing `'/'`. -/
def stripSlashes (s : String) : String :=
  String.mk (((s.toList.dropWhile (fun c => c = '/')).reverse.dropWhile
    (fun c => c = '/')).reverse)

/-- The candidate segment list built at the top of `VFS.cd`:
absolute paths are split from the root (after stripping slashes), relative
paths are appended to the current working directory. -/
def cdNewParts (cwd : List String) (path : String) : List String :=
  if startsWithSlash path then
    if stripSlashes path = "" then [] else pySplitSlash (stripSlashes path)
  else
    cwd ++ (if path = "" then [] else pySplitSlash path)

/-- The normalization loop of `VFS.cd`: drop `'.'` and `''` segments, let
`'..'` pop the last resolved segment (a no-op when already at the root),
append everything else. -/
def normalizeParts (parts : List String) : List String :=
  parts.foldl
    (fun acc part =>
      if part = "." ∨ part = "" then acc
      else if part = ".." then acc.dropLast
      else acc ++ [part]) []

/-- The fully normalized candidate sequence `resolved_cwd` computed by
`VFS.cd` before any check. -/
def cdCandidate (cwd : List String) (path : String) : List String :=
  normalizeParts (cdNewParts cwd path)

/-- `VFS.cd(path)`: build the candidate, resolve it from the root, fail (with
the cwd unchanged) if it resolves to nothing or to a file node, otherwise
install the candidate as the new cwd.  Returns (success flag, new cwd). -/
def VFScd (root : PyVal) (cwd : List String) (path : String) :
    Bool × List String :=
  let resolved_cwd := cdCandidate cwd path
  match pyResolve root resolved_cwd with
  | none => (false, cwd)
  | some target =>
    if isFileNode target then (false, cwd) else (true, resolved_cwd)

/-- `VFS.pwd`: `"/" + "/".join(self.cwd)`. -/
def vfsPwd (cwd : List String) : String :=
  "/" ++ String.intercalate "/" cwd

/-- `list(node.keys())`. -/
def dictKeys : PyVal → List String
  | PyVal.dict es => es.map Prod.fst
  | _ => []

/-- `VFS.ls`: resolve the cwd; `None` gives an empty listing, a file node
prints "ls: not a directory" and gives an empty listing, otherwise the child
names in insertion order.  Returns (lines printed inside ls, items). -/
def vfsLs (root : PyVal) (cwd : List String) : List String × List String :=
  match pyResolve root cwd with
  | none => ([], [])
  | some n =>
    if isFileNode n then (["ls: not a directory"], []) else ([], dictKeys n)

mutual

/-- The `find_recursive` closure of the `find` built-in: depth-first walk in
insertion order.  Every key at a visited level whose name equals the search
name contributes its `/`-joined path; the walk recurses into a child value
only when it is a dict that does NOT contain the key `'type'`
(`isinstance(value, dict) and 'type' not in value`). -/
def findRec (search : String) : PyVal → String → List String
  | PyVal.dict es, current_path => findRecEntries search es current_path
  | _, _ => []

/-- The `for key, value in node.items()` loop body of `find_recursive`. -/
def findRecEntries (search : String) :
    List (String × PyVal) → String → List String
  | [], _ => []
  | (key, value) :: rest, current_path =>
    let full_path :=
      if current_path ≠ "" then current_path ++ "/" ++ key else key
    (if key = search then [full_path] else [])
      ++ (if value.isDict && !(hasTypeKey value) then
            findRec search value full_path
          else [])
      ++ findRecEntries search rest current_path

end

/-- The results of `find <name>` as printed by `handle_command`:
`find_recursive(vfs.root, '')`. -/
def findResults (root : PyVal) (search : String) : List String :=
  findRec search root ""

/-- Python `f"{i:3}"`: the decimal rendering of `i`, right-justified with
spaces to width 3. -/
def rjust3 (s : String) : String :=
  if s.length < 3 then String.mk (List.replicate (3 - s.length) ' ') ++ s
  else s

/-- One line of the `history` built-in: `f"{i:3}: {entry}"`. -/
def fmtHistEntry (i : Nat) (entry : String) : String :=
  rjust3 (toString i) ++ ": " ++ entry

/-- `enumerate(command_history, 1)` starting at index `i`. -/
def historyLinesFrom (i : Nat) : List String → List String
  | [] => []
  | entry :: rest => fmtHistEntry i entry :: historyLinesFrom (i + 1) rest

/-- The full output of the `history` built-in. -/
def historyLines (hist : List String) : List String :=
  historyLinesFrom 1 hist

/-- The static output of the `help` built-in. -/
def helpLines : List String :=
  ["Available commands:", "  exit", "  echo <arg>", "  pwd", "  ls",
   "  cd <path>", " cd .. (возврат)", "  find <file_or_catalog>",
   "  history", "  help"]

/-- `parse_input(line)`: tokenize with shlex (an external collaborator,
abstracted as `tok`; `none` models a raised `ValueError`, where the Python
code prints a parse error and returns `(None, None)`), expand environment
variables in each token (`expand_env`, abstracted as `exps`), and split off
the command name; an empty token list yields the empty command name. -/
def parse_input (tok : String → Option (List String))
    (exps : String → String) (line : String) :
    Option (String × List String) :=
  match tok line with
  | none => none
  | some parts =>
    match parts.map exps with
    | [] => some ("", [])
    | c :: rest => some (c, rest)

/-- The result of one `handle_command` call: the returned continue flag
(`true` = keep going, `false` = stop), the working directory afterwards, and
the lines printed. -/
structure CmdResult where
  cont : Bool
  cwd : List String
  out : List String
  deriving DecidableEq

/-- `handle_command(cmd, args, vfs, script_mode)`.  The VFS root is read-only
here; only the `cd` branch can change the working directory.  The command
history is read by the `history` branch and never written here (the drivers
append to it before dispatching). -/
def handle_command (cmd : String) (args : List String) (root : PyVal)
    (cwd : List String) (hist : List String) (script_mode : Bool) :
    CmdResult :=
  if cmd = "exit" then ⟨false, cwd, []⟩
  else if cmd = "echo" then ⟨true, cwd, [String.intercalate " " args]⟩
  else if cmd = "pwd" then ⟨true, cwd, [vfsPwd cwd]⟩
  else if cmd = "ls" then
    let r := vfsLs root cwd
    ⟨true, cwd,
      r.1 ++ (if r.2.isEmpty then [] else [String.intercalate "  " r.2])⟩
  else if cmd = "cd" then
    match args with
    | [] => ⟨!script_mode, cwd, ["cd: missing argument"]⟩
    | a :: _ =>
      let r := VFScd root cwd a
      if r.1 then ⟨true, r.2, []⟩
      else ⟨!script_mode, cwd, ["cd: no such directory: " ++ a]⟩
  else if cmd = "find" then
    match args with
    | [] => ⟨!script_mode, cwd, ["find: missing argument"]⟩
    | a :: _ => ⟨true, cwd, findResults root a⟩
  else if cmd = "history" then ⟨true, cwd, historyLines hist⟩
  else if cmd = "help" then ⟨true, cwd, helpLines⟩
  else ⟨!script_mode, cwd, ["Command not found: " ++ cmd]⟩

/-- The mutable shell state threaded through the drivers: the working
directory (`vfs.cwd`) and the command history (`command_history`). -/
structure ShellSt where
  cwd : List String
  hist : List String
  deriving DecidableEq

/-- The interactive loop `repl`, driven by the (finite) sequence of lines the
terminal will deliver; the list ending models end-of-input.  A line that
fails tokenization is skipped (`parse_input` printed the error) WITHOUT being
recorded in the history; otherwise the line is appended to the history and
dispatched with `script_mode=False`, and a `False` result ends the loop.
Returns the final state and the lines printed by the dispatched commands. -/
def replRun (tok : String → Option (List String)) (exps : String → String)
    (root : PyVal) : List String → ShellSt → ShellSt × List String
  | [], st => (st, [])
  | line :: rest, st =>
    match parse_input tok exps line with
    | none => replRun tok exps root rest st
    | some (cmd, args) =>
      let hist' := st.hist ++ [line]
      let r := handle_command cmd args root st.cwd hist' false
      if r.cont then
        let next := replRun tok exps root rest ⟨r.cwd, hist'⟩
        (next.1, r.out ++ next.2)
      else (⟨r.cwd, hist'⟩, r.out)

/-- `run_startup_script`, driven by the script's lines (each already stripped
of its trailing newline, as by `raw.rstrip("\n")`); `prompt` abstracts
`make_prompt` applied to the current working directory.  A line whose
stripped form starts with `#` is echoed as a comment and skipped (not
recorded, not dispatched).  Otherwise the prompt-prefixed line is echoed; a
tokenization failure halts the run with `False` (the line NOT recorded);
otherwise the line is appended to the history and dispatched with
`script_mode=True`, and a `False` result halts the run reporting the line.
Returns (overall success, final state, printed lines). -/
def scriptRun (tok : String → Option (List String)) (exps : String → String)
    (root : PyVal) (prompt : List String → String) :
    List String → ShellSt → Bool × ShellSt × List String
  | [], st => (true, st, [])
  | line :: rest, st =>
    if startsWithHash (pyStrip line) then
      let next := scriptRun tok exps root prompt rest st
      (next.1, next.2.1,
        ("# " ++ pyStrip (String.mk (pyStrip line).toList.tail)) :: next.2.2)
    else
      let echo := prompt st.cwd ++ line
      match parse_input tok exps line with
      | none => (false, st, [echo, "Script: parse error"])
      | some (cmd, args) =>
        let hist' := st.hist ++ [line]
        let r := handle_command cmd args root st.cwd hist' true
        if r.cont then
          let next := scriptRun tok exps root prompt rest ⟨r.cwd, hist'⟩
          (next.1, next.2.1, echo :: (r.out ++ next.2.2))
        else
          (false, ⟨r.cwd, hist'⟩,
            echo :: (r.out ++ ["Script stopped at: " ++ line]))

/-! ## Resolver lemmas -/

/-- Resolution of a concatenated segment list factors through the prefix. -/
lemma pyResolve_append :
    ∀ (pre : List String) (cur : PyVal) (post : List String),
      pyResolve cur (pre ++ post) =
        (pyResolve cur pre).bind fun v => pyResolve v post := by
  intro pre
  induction pre with
  | nil => intro cur post; simp [pyResolve]
  | cons p ps ih =>
    intro cur post
    by_cases hp : p = "" ∨ p = "."
    · cases cur with
      | dict es =>
        simp only [List.cons_append, pyResolve, if_pos hp]
        exact ih _ post
      | str s =>
        simp only [List.cons_append, pyResolve, if_pos hp]
        exact ih _ post
      | bytes b =>
        simp only [List.cons_append, pyResolve, if_pos hp]
        exact ih _ post
    · cases cur with
      | dict es =>
        cases hv : dlookup es p with
        | none => simp [pyResolve, if_neg hp, hv]
        | some v =>
          by_cases hd : v.isDict = true
          · simp only [List.cons_append, pyResolve, if_neg hp, hv, if_pos hd]
            exact ih v post
          · simp [pyResolve, if_neg hp, hv, hd]
      | str s => simp [pyResolve, if_neg hp]
      | bytes b => simp [pyResolve, if_neg hp]

/-- Every node `resolve` returns is a dict, provided the start node is
(Python would raise before returning anything else). -/
lemma pyResolve_isDict :
    ∀ (ps : List String) (cur : PyVal), cur.isDict = true →
      ∀ n, pyResolve cur ps = some n → n.isDict = true := by
  intro ps
  induction ps with
  | nil =>
    intro cur h n hn
    simp only [pyResolve, Option.some.injEq] at hn
    rwa [← hn]
  | cons p ps ih =>
    intro cur h n hn
    cases cur with
    | str s => simp [PyVal.isDict] at h
    | bytes b => simp [PyVal.isDict] at h
    | dict es =>
      by_cases hp : p = "" ∨ p = "."
      · rw [pyResolve, if_pos hp] at hn
        exact ih _ h n hn
      · rw [pyResolve, if_neg hp] at hn
        split at hn
        next v heq =>
          split at hn
          next hd => exact ih v hd n hn
          next => cases hn
        next => cases hn

/-- If every value of the entry list is a non-dict, a lookup never yields a
dict. -/
lemma allValuesNonDict_lookup :
    ∀ (es : List (String × PyVal)), allValuesNonDict es = true →
      ∀ q v, dlookup es q = some v → v.isDict = false := by
  intro es
  induction es with
  | nil => intro _ q v hv; cases hv
  | cons e rest ih =>
    intro h q v hv
    obtain ⟨k, w⟩ := e
    simp only [allValuesNonDict, Bool.and_eq_true] at h
    rw [dlookup] at hv
    by_cases hk : k = q
    · rw [if_pos hk] at hv
      cases hv
      simpa using h.1
    · rw [if_neg hk] at hv
      exact ih h.2 q v hv

/-- From a node all of whose values are non-dicts, resolving any segment list
containing at least one real (non-skipped) segment fails. -/
lemma pyResolve_nonDictValues_none :
    ∀ (post : List String) (f : List (String × PyVal)),
      allValuesNonDict f = true →
      (∃ q ∈ post, ¬(q = "" ∨ q = ".")) →
      pyResolve (PyVal.dict f) post = none := by
  intro post
  induction post with
  | nil =>
    intro f _ hq
    obtain ⟨q, hq1, _⟩ := hq
    cases hq1
  | cons p ps ih =>
    intro f hf hq
    by_cases hp : p = "" ∨ p = "."
    · rw [pyResolve, if_pos hp]
      obtain ⟨q, hq1, hq2⟩ := hq
      rcases List.mem_cons.mp hq1 with h | h
      · exact absurd hp (h ▸ hq2)
      · exact ih f hf ⟨q, h, hq2⟩
    · rw [pyResolve, if_neg hp]
      cases hv : dlookup f p with
      | none => simp [hv]
      | some v =>
        have hnd : v.isDict = false := allValuesNonDict_lookup f hf p v hv
        simp [hv, hnd]

/-- The full case analysis of `VFS.cd`: either it fails — because the
normalized candidate resolves to nothing or to a file node — and the working
directory is returned unchanged, or it succeeds — the candidate resolves to a
non-file node — and the candidate becomes the working directory. -/
lemma VFScd_spec (root : PyVal) (cwd : List String) (path : String) :
    ((VFScd root cwd path).1 = false ∧ (VFScd root cwd path).2 = cwd ∧
      (pyResolve root (cdCandidate cwd path) = none ∨
        ∃ t, pyResolve root (cdCandidate cwd path) = some t ∧
          isFileNode t = true)) ∨
    ((VFScd root cwd path).1 = true ∧
      (VFScd root cwd path).2 = cdCandidate cwd path ∧
      ∃ t, pyResolve root (cdCandidate cwd path) = some t ∧
        isFileNode t = false) := by
  rcases hr : pyResolve root (cdCandidate cwd path) with _ | t
  · left
    refine ⟨?_, ?_, Or.inl rfl⟩ <;> simp [VFScd, hr]
  · by_cases hf : isFileNode t = true
    · left
      refine ⟨?_, ?_, Or.inr ⟨t, rfl, hf⟩⟩ <;> simp [VFScd, hr, hf]
    · right
      rw [Bool.not_eq_true] at hf
      refine ⟨?_, ?_, t, rfl, hf⟩ <;> simp [VFScd, hr, hf]



/-- C2: Atomicity of cd — for every path expression, `VFS.cd` fails exactly
when the fully normalized candidate sequence resolves to nothing or to a file
node, and then the working directory is returned exactly unchanged; when it
succeeds, the working directory is replaced in one step by the fully
normalized candidate sequence, never a partially applied one. -/
theorem cd_atomic (root : PyVal) (cwd : List String) (path : String) :
    ((VFScd root cwd path).1 = false ↔
      (pyResolve root (cdCandidate cwd path) = none ∨
        ∃ t, pyResolve root (cdCandidate cwd path) = some t ∧
          isFileNode t = true))
    ∧ ((VFScd root cwd path).1 = false → (VFScd root cwd path).2 = cwd)
    ∧ ((VFScd root cwd path).1 = true →
        (VFScd root cwd path).2 = cdCandidate cwd path) := by
  rcases VFScd_spec root cwd path with ⟨h1, h2, h3⟩ | ⟨h1, h2, h3⟩
  · refine ⟨⟨fun _ => h3, fun _ => h1⟩, fun _ => h2, fun ht => ?_⟩
    rw [h1] at ht
    cases ht
  · refine ⟨⟨fun hf => ?_, fun hcond => ?_⟩, fun hf => ?_, fun _ => h2⟩
    · rw [h1] at hf
      cases hf
    · obtain ⟨t, ht, htf⟩ := h3
      rcases hcond with hn | ⟨t2, ht2, htf2⟩
      · rw [ht] at hn
        cases hn
      · rw [ht] at ht2
        cases ht2
        rw [htf] at htf2
        cases htf2
    · rw [h1] at hf
      cases hf

/-- Witness for cd_atomic: a failing cd (to a missing directory) leaves the
root cwd unchanged, and a succeeding cd installs the normalized candidate. -/
theorem cd_atomic_witness :
    (VFScd (PyVal.dict []) [] "nope").2 = []
    ∧ (VFScd (PyVal.dict [("a", PyVal.dict [])]) [] "a").2 = ["a"] := by
  constructor
  · exact (cd_atomic (PyVal.dict []) [] "nope").2.1 (by rfl)
  · have h := (cd_atomic (PyVal.dict [("a", PyVal.dict [])]) [] "a").2.2 (by rfl)
    rw [h]
    decide

/-- C8: Resolution failure on files — resolution factors through each prefix,
so a prefix that already fails makes the whole resolution fail without
consuming further segments, and a prefix denoting a file node (whose values
are all non-dicts: files have no children) makes any continuation with at
least one real segment fail; hence resolve never returns a node reached by
descending through a file. -/
theorem resolve_blocked_by_file (root : PyVal) (pre post : List String)
    (f : List (String × PyVal)) :
    (pyResolve root pre = none → pyResolve root (pre ++ post) = none)
    ∧ (pyResolve root pre = some (PyVal.dict f) →
        isFileNode (PyVal.dict f) = true →
        allValuesNonDict f = true →
        (∃ q ∈ post, ¬(q = "" ∨ q = ".")) →
        pyResolve root (pre ++ post) = none) := by
  constructor
  · intro h
    rw [pyResolve_append pre root post, h]
    rfl
  · intro h _ hf hq
    rw [pyResolve_append pre root post, h, Option.some_bind]
    exact pyResolve_nonDictValues_none post f hf hq

/-- Witness for resolve_blocked_by_file: in a VFS holding a single file `f`,
resolving `f/x` fails (the path descends through a file), and in the empty
VFS resolving `x/y` fails because the prefix `x` already fails. -/
theorem resolve_blocked_by_file_witness :
    pyResolve (PyVal.dict []) (["x"] ++ ["y"]) = none
    ∧ pyResolve (PyVal.dict [("f", mkFileNode [1])]) (["f"] ++ ["x"]) = none := by
  constructor
  · exact (resolve_blocked_by_file (PyVal.dict []) ["x"] ["y"] []).1 (by rfl)
  · exact (resolve_blocked_by_file (PyVal.dict [("f", mkFileNode [1])]) ["f"]
      ["x"] [("type", PyVal.str "file"), ("data", PyVal.bytes [1])]).2
      (by rfl) (by rfl) (by rfl) ⟨"x", by simp, by decide⟩

/-- C7: Clamped parent traversal — in the normalization loop a `..` segment
pops the last resolved segment (`List.dropLast` is the identity on the empty
sequence, so popping past the root is a no-op, not an error); in particular
`cd ..` executed at the root succeeds and leaves the working directory
unchanged, and the subsequent `pwd` output is exactly "/". -/
theorem dotdot_clamped (root : PyVal) (parts : List String)
    (h2 : isFileNode root = false) :
    normalizeParts (parts ++ [".."]) = (normalizeParts parts).dropLast
    ∧ VFScd root [] ".." = (true, [])
    ∧ vfsPwd [] = "/" := by
  refine ⟨?_, ?_, rfl⟩
  · rw [normalizeParts, normalizeParts, List.foldl_append, List.foldl_cons,
      List.foldl_nil, if_neg (by decide), if_pos rfl]
  · have hc : cdCandidate ([] : List String) ".." = [] := by rfl
    simp only [VFScd, hc, pyResolve, h2]
    simp

/-- Witness for dotdot_clamped at the empty root VFS. -/
theorem dotdot_clamped_witness :
    normalizeParts (["a"] ++ [".."]) = (normalizeParts ["a"]).dropLast
    ∧ VFScd (PyVal.dict []) [] ".." = (true, [])
    ∧ vfsPwd [] = "/" :=
  dotdot_clamped (PyVal.dict []) ["a"] (by rfl)

/-- `handle_command` changes the working directory only through a successful
`VFS.cd`; every other branch returns it unchanged. -/
lemma handle_command_cwd (cmd : String) (args : List String) (root : PyVal)
    (cwd hist : List String) (m : Bool) :
    (handle_command cmd args root cwd hist m).cwd = cwd ∨
    ∃ a, (VFScd root cwd a).1 = true ∧
      (handle_command cmd args root cwd hist m).cwd = (VFScd root cwd a).2 := by
  simp only [handle_command]
  repeat' split
  all_goals first
    | (left; rfl)
    | (right; exact ⟨_, by assumption, rfl⟩)

/-- C1: Working-directory invariant — starting from the root (the empty
sequence) and applying any sequence of shell operations (each a dispatched
command with its arguments and mode, in particular any `cd`, succeeding or
failing), the resulting working directory always resolves from the root to a
dict node that is not a file node: a Directory, never a File, never
missing. -/
theorem wd_invariant (root : PyVal) (h1 : root.isDict = true)
    (h2 : isFileNode root = false)
    (ops : List ((String × List String) × Bool)) (hist : List String) :
    ∃ n, pyResolve root
        (ops.foldl
          (fun cwd op => (handle_command op.1.1 op.1.2 root cwd hist op.2).cwd)
          []) = some n
      ∧ n.isDict = true ∧ isFileNode n = false := by
  have step : ∀ cwd : List String,
      (∃ n, pyResolve root cwd = some n ∧ n.isDict = true ∧
        isFileNode n = false) →
      ∀ (c : String) (as : List String) (m : Bool),
      ∃ n, pyResolve root (handle_command c as root cwd hist m).cwd = some n
        ∧ n.isDict = true ∧ isFileNode n = false := by
    intro cwd hcwd c as m
    rcases handle_command_cwd c as root cwd hist m with he | ⟨a, ha, he⟩
    · rw [he]
      exact hcwd
    · rw [he]
      rcases VFScd_spec root cwd a with ⟨hf, _, _⟩ | ⟨_, hcand, t, ht, htf⟩
      · rw [ha] at hf
        cases hf
      · rw [hcand]
        exact ⟨t, ht, pyResolve_isDict _ root h1 t ht, htf⟩
  suffices hmain : ∀ (l : List ((String × List String) × Bool))
      (cwd : List String),
      (∃ n, pyResolve root cwd = some n ∧ n.isDict = true ∧
        isFileNode n = false) →
      ∃ n, pyResolve root
          (l.foldl
            (fun cwd op => (handle_command op.1.1 op.1.2 root cwd hist op.2).cwd)
            cwd) = some n
        ∧ n.isDict = true ∧ isFileNode n = false by
    exact hmain ops [] ⟨root, rfl, h1, h2⟩
  intro l
  induction l with
  | nil => intro cwd h; simpa using h
  | cons op rest ih =>
    intro cwd h
    rw [List.foldl_cons]
    exact ih _ (step cwd h op.1.1 op.1.2 op.2)

/-- Witness for wd_invariant: a successful cd, a failing cd in scripted mode
and an ls, applied in order from the root of a one-directory VFS. -/
theorem wd_invariant_witness :
    ∃ n, pyResolve (PyVal.dict [("a", PyVal.dict [])])
        (([(("cd", ["a"]), false), (("cd", ["nope"]), true),
           (("ls", []), false)] :
            List ((String × List String) × Bool)).foldl
          (fun cwd op =>
            (handle_command op.1.1 op.1.2 (PyVal.dict [("a", PyVal.dict [])])
              cwd [] op.2).cwd)
          []) = some n
      ∧ n.isDict = true ∧ isFileNode n = false :=
  wd_invariant (PyVal.dict [("a", PyVal.dict [])]) (by rfl) (by rfl)
    [(("cd", ["a"]), false), (("cd", ["nope"]), true), (("ls", []), false)] []

/-- C4: Mode-dependent failure policy — `cd` with a missing argument, `cd`
with a failing path, and an unrecognized command name all return Continue
(`true`) in interactive mode (`script_mode = false`) and Stop (`false`) in
scripted mode (`script_mode = true`), i.e. their flag is the negation of the
mode; `exit` returns Stop in both modes. -/
theorem mode_failure_policy (root : PyVal) (cwd hist : List String)
    (a : String) (rest args : List String) (cmd : String) (m : Bool)
    (hcd : (VFScd root cwd a).1 = false)
    (hcmd : cmd ∉ ["exit", "echo", "pwd", "ls", "cd", "find", "history",
      "help"]) :
    (handle_command "cd" [] root cwd hist m).cont = !m
    ∧ (handle_command "cd" (a :: rest) root cwd hist m).cont = !m
    ∧ (handle_command cmd args root cwd hist m).cont = !m
    ∧ (handle_command "exit" args root cwd hist m).cont = false := by
  simp only [List.mem_cons, List.not_mem_nil, or_false, not_or] at hcmd
  obtain ⟨hc1, hc2, hc3, hc4, hc5, hc6, hc7, hc8⟩ := hcmd
  refine ⟨?_, ?_, ?_, ?_⟩
  · simp [handle_command]
  · simp [handle_command, hcd]
  · simp [handle_command, hc1, hc2, hc3, hc4, hc5, hc6, hc7, hc8]
  · simp [handle_command]

/-- Witness for mode_failure_policy in scripted mode on the empty VFS. -/
theorem mode_failure_policy_witness :
    (handle_command "cd" [] (PyVal.dict []) [] [] true).cont = !true
    ∧ (handle_command "cd" ["nope"] (PyVal.dict []) [] [] true).cont = !true
    ∧ (handle_command "frobnicate" [] (PyVal.dict []) [] [] true).cont = !true
    ∧ (handle_command "exit" [] (PyVal.dict []) [] [] true).cont = false :=
  mode_failure_policy (PyVal.dict []) [] [] "nope" [] [] "frobnicate" true
    (by decide) (by decide)

/-- C6 counterexample: `find` CAN produce Stop — invoked with an empty
argument list in scripted mode it returns `False`, halting the script. -/
theorem find_missing_arg_stops :
    (handle_command "find" [] emptyRoot [] [] true).cont = false := by decide

/-- C6 (amended): `find` with at least one argument returns Continue in both
modes (an empty result simply emits nothing); `find` with no argument
reports a missing argument and follows the mode failure policy — Continue in
interactive mode, Stop in scripted mode. -/
theorem find_mode_policy (root : PyVal) (cwd hist : List String) (a : String)
    (args : List String) (m : Bool) :
    (handle_command "find" (a :: args) root cwd hist m).cont = true
    ∧ (handle_command "find" [] root cwd hist false).cont = true
    ∧ (handle_command "find" [] root cwd hist true).cont = false := by
  refine ⟨?_, ?_, ?_⟩ <;> simp [handle_command]

/-- Appending one entry to the history appends one formatted line, numbered
by its (1-based) position. -/
lemma historyLinesFrom_append_single :
    ∀ (xs : List String) (i : Nat) (x : String),
      historyLinesFrom i (xs ++ [x]) =
        historyLinesFrom i xs ++ [fmtHistEntry (i + xs.length) x] := by
  intro xs
  induction xs with
  | nil => intro i x; simp [historyLinesFrom]
  | cons y ys ih =>
    intro i x
    rw [List.cons_append, historyLinesFrom, ih, historyLinesFrom,
      List.cons_append, List.length_cons,
      show i + 1 + ys.length = i + (ys.length + 1) from by omega]

/-- C3 (code-bug exhibit): on the VFS built by `add_dir("a/type")` the node
`a/type` is a genuine directory — it resolves, and `cd a/type` succeeds by
the shell's own file test — yet `find type` emits nothing: `find_recursive`
tests filehood by the mere presence of a key named `'type'`
(`'type' not in value`), unlike `cd`/`ls` which also require its value to be
the string `'file'`, so it refuses to recurse into the directory `a` and
never visits the node named `type`.  The claim (and the spec's completeness
requirement for `find`) demand the path `a/type` be emitted. -/
theorem find_skips_type_dirs :
    findResults (add_dir emptyRoot "a/type") "type" = []
    ∧ pyResolve (add_dir emptyRoot "a/type") ["a", "type"] =
        some (PyVal.dict [])
    ∧ (VFScd (add_dir emptyRoot "a/type") [] "a/type").1 = true := by
  refine ⟨?_, by rfl, by rfl⟩
  simp [findResults, findRec, findRecEntries, add_dir, addDirGo, emptyRoot,
    pySplitSlash, splitSlashGo, hasTypeKey, dlookup, dinsert, PyVal.isDict]

/-- C9: A line that tokenizes to no tokens (empty or whitespace-only) is
parsed to the empty command name with no arguments; the dispatcher treats
the empty name as an unrecognized command, printing "Command not found: "
and returning the mode-dependent failure flag; in a script such a line
(which is not a comment) therefore halts the run, with the remaining lines
never executed. -/
theorem empty_tokenization_unknown_command
    (tok : String → Option (List String)) (exps : String → String)
    (root : PyVal) (prompt : List String → String) (line : String)
    (rest : List String) (st : ShellSt) (args : List String)
    (cwd hist : List String) (m : Bool)
    (h1 : tok line = some [])
    (h2 : startsWithHash (pyStrip line) = false) :
    parse_input tok exps line = some ("", [])
    ∧ handle_command "" args root cwd hist m = ⟨!m, cwd, ["Command not found: "]⟩
    ∧ scriptRun tok exps root prompt (line :: rest) st =
        (false, ⟨st.cwd, st.hist ++ [line]⟩,
          [prompt st.cwd ++ line, "Command not found: ",
           "Script stopped at: " ++ line]) := by
  have hparse : parse_input tok exps line = some ("", []) := by
    simp [parse_input, h1]
  refine ⟨hparse, by simp [handle_command], ?_⟩
  simp [scriptRun, h2, hparse, handle_command]

/-- Witness for empty_tokenization_unknown_command: the empty line under a
tokenizer that yields no tokens for it. -/
theorem empty_tokenization_unknown_command_witness :
    parse_input (fun _ => some []) id "" = some ("", [])
    ∧ handle_command "" [] (PyVal.dict []) [] [] true =
        ⟨!true, [], ["Command not found: "]⟩
    ∧ scriptRun (fun _ => some []) id (PyVal.dict []) (fun _ => "$ ")
        ["", "pwd"] ⟨[], []⟩ =
        (false, ⟨[], [""]⟩,
          ["$ " ++ "", "Command not found: ", "Script stopped at: " ++ ""]) :=
  empty_tokenization_unknown_command (fun _ => some []) id (PyVal.dict [])
    (fun _ => "$ ") "" ["pwd"] ⟨[], []⟩ [] [] [] true (by rfl) (by rfl)

/-- C10: history lists itself — a line that parses to the `history` command
is appended to the history before dispatch, so the listing it prints is that
of the history including itself: in both drivers the line's output starts
with the listing of `st.hist ++ [line]`, whose last (highest-indexed) entry
is the invoking line itself, numbered one past the previous history
length. -/
theorem history_lists_invoking_line
    (tok : String → Option (List String)) (exps : String → String)
    (root : PyVal) (prompt : List String → String)
    (line : String) (rest : List String) (st : ShellSt) (args : List String)
    (h : parse_input tok exps line = some ("history", args))
    (h2 : startsWithHash (pyStrip line) = false) :
    (∃ moreOut,
      (replRun tok exps root (line :: rest) st).2 =
        historyLines (st.hist ++ [line]) ++ moreOut)
    ∧ (∃ moreOut,
      (scriptRun tok exps root prompt (line :: rest) st).2.2 =
        (prompt st.cwd ++ line) :: (historyLines (st.hist ++ [line]) ++ moreOut))
    ∧ (historyLines (st.hist ++ [line])).getLast? =
        some (fmtHistEntry (st.hist.length + 1) line) := by
  refine ⟨⟨(replRun tok exps root rest
      ⟨st.cwd, st.hist ++ [line]⟩).2, ?_⟩,
    ⟨(scriptRun tok exps root prompt rest
      ⟨st.cwd, st.hist ++ [line]⟩).2.2, ?_⟩, ?_⟩
  · simp [replRun, h, handle_command]
  · simp [scriptRun, h2, h, handle_command]
  · rw [historyLines, historyLinesFrom_append_single, List.getLast?_concat,
      Nat.add_comm]

/-- Witness for history_lists_invoking_line: a `history` line entering a
one-entry history lists itself last, as entry 2. -/
theorem history_lists_invoking_line_witness :
    (∃ moreOut,
      (replRun (fun _ => some ["history"]) id (PyVal.dict [])
        (["history"] ++ []) ⟨[], ["pwd"]⟩).2 =
        historyLines (["pwd"] ++ ["history"]) ++ moreOut)
    ∧ (∃ moreOut,
      (scriptRun (fun _ => some ["history"]) id (PyVal.dict [])
        (fun _ => "$ ") (["history"] ++ []) ⟨[], ["pwd"]⟩).2.2 =
        ("$ " ++ "history") :: (historyLines (["pwd"] ++ ["history"]) ++ moreOut))
    ∧ (historyLines (["pwd"] ++ ["history"])).getLast? =
        some (fmtHistEntry (1 + 1) "history") := by
  have h := history_lists_invoking_line (fun _ => some ["history"]) id
    (PyVal.dict []) (fun _ => "$ ") "history" [] ⟨[], ["pwd"]⟩ []
    (by rfl) (by rfl)
  exact h

/-- In the interactive loop, the final history is the initial history
extended with exactly the successfully tokenized members of the processed
prefix of the input lines, in order. -/
lemma replRun_hist (tok : String → Option (List String))
    (exps : String → String) (root : PyVal) :
    ∀ (lines : List String) (st : ShellSt),
      ∃ p rest, lines = p ++ rest ∧
        (replRun tok exps root lines st).1.hist =
          st.hist ++ p.filter (fun l => (parse_input tok exps l).isSome) := by
  intro lines
  induction lines with
  | nil => intro st; exact ⟨[], [], rfl, by simp [replRun]⟩
  | cons line rest ih =>
    intro st
    cases hp : parse_input tok exps line with
    | none =>
      obtain ⟨p, r, hpr, hh⟩ := ih st
      refine ⟨line :: p, r, by rw [List.cons_append, hpr], ?_⟩
      simp only [replRun, hp]
      rw [hh, List.filter_cons]
      simp [hp]
    | some ca =>
      obtain ⟨cmd, args⟩ := ca
      by_cases hc :
          (handle_command cmd args root st.cwd (st.hist ++ [line]) false).cont
            = true
      · obtain ⟨p, r, hpr, hh⟩ := ih
          ⟨(handle_command cmd args root st.cwd (st.hist ++ [line]) false).cwd,
            st.hist ++ [line]⟩
        refine ⟨line :: p, r, by rw [List.cons_append, hpr], ?_⟩
        simp only [replRun, hp, hc, if_true]
        simp only at hh
        rw [hh, List.filter_cons]
        simp [hp]
      · refine ⟨[line], rest, rfl, ?_⟩
        rw [Bool.not_eq_true] at hc
        simp only [replRun, hp, hc]
        rw [List.filter_cons]
        simp [hp]

/-- In the scripted driver, the final history is the initial history extended
with exactly the non-comment, successfully tokenized members of the
processed prefix of the script lines, in order. -/
lemma scriptRun_hist (tok : String → Option (List String))
    (exps : String → String) (root : PyVal) (prompt : List String → String) :
    ∀ (lines : List String) (st : ShellSt),
      ∃ p rest, lines = p ++ rest ∧
        (scriptRun tok exps root prompt lines st).2.1.hist =
          st.hist ++ p.filter (fun l =>
            !(startsWithHash (pyStrip l)) && (parse_input tok exps l).isSome) := by
  intro lines
  induction lines with
  | nil => intro st; exact ⟨[], [], rfl, by simp [scriptRun]⟩
  | cons line rest ih =>
    intro st
    by_cases hcm : startsWithHash (pyStrip line) = true
    · obtain ⟨p, r, hpr, hh⟩ := ih st
      refine ⟨line :: p, r, by rw [List.cons_append, hpr], ?_⟩
      simp only [scriptRun, hcm, if_true]
      rw [hh, List.filter_cons]
      simp [hcm]
    · rw [Bool.not_eq_true] at hcm
      cases hp : parse_input tok exps line with
      | none =>
        refine ⟨[line], rest, rfl, ?_⟩
        simp only [scriptRun, hcm, hp]
        rw [List.filter_cons]
        simp [hp, hcm]
      | some ca =>
        obtain ⟨cmd, args⟩ := ca
        by_cases hc :
            (handle_command cmd args root st.cwd (st.hist ++ [line]) true).cont
              = true
        · obtain ⟨p, r, hpr, hh⟩ := ih
            ⟨(handle_command cmd args root st.cwd (st.hist ++ [line]) true).cwd,
              st.hist ++ [line]⟩
          refine ⟨line :: p, r, by rw [List.cons_append, hpr], ?_⟩
          simp only [scriptRun, hcm, hp, hc, if_true]
          rw [if_neg (by simp)]
          simp only at hh
          rw [hh, List.filter_cons]
          simp [hp, hcm]
        · refine ⟨[line], rest, rfl, ?_⟩
          rw [Bool.not_eq_true] at hc
          simp only [scriptRun, hcm, hp, hc]
          rw [List.filter_cons]
          simp [hp, hcm]

/-- C5 counterexample: a processed line that fails tokenization (an
unbalanced quote, which shlex rejects) is NOT recorded — after processing
one such line the history does not hold it, because both drivers call
`parse_input` first and append to the history only afterwards, skipping the
append when tokenization fails. -/
theorem parse_error_line_not_recorded :
    (replRun (fun l => if l = "echo \"a" then none else some [l]) id
      (PyVal.dict []) ["echo \"a"] ⟨[], []⟩).1.hist ≠ ["echo \"a"] := by
  decide

/-- C5 (amended): in both drivers every processed non-comment line that
tokenizes successfully is appended to the history as its literal text, after
tokenization succeeds and before dispatch, in execution order; a line that
fails tokenization is not recorded.  After N processed, successfully
tokenized (non-comment) lines the history holds exactly those N lines in
order: the final history is the initial one extended by exactly the filter
of the processed prefix. -/
theorem history_records_tokenized_lines (tok : String → Option (List String))
    (exps : String → String) (root : PyVal) (prompt : List String → String)
    (lines : List String) (st : ShellSt) :
    (∃ p rest, lines = p ++ rest ∧
      (replRun tok exps root lines st).1.hist =
        st.hist ++ p.filter (fun l => (parse_input tok exps l).isSome))
    ∧ (∃ p rest, lines = p ++ rest ∧
      (scriptRun tok exps root prompt lines st).2.1.hist =
        st.hist ++ p.filter (fun l =>
          !(startsWithHash (pyStrip l)) && (parse_input tok exps l).isSome)) :=
  ⟨replRun_hist tok exps root lines st,
   scriptRun_hist tok exps root prompt lines st⟩

/-! ## Construction lemmas: the loader delivers a directory root

These results justify the root hypotheses of `wd_invariant` and
`dotdot_clamped` for every VFS the loader can build: the root is always a
dict all of whose values are dicts, hence never a file node. -/

/-- `dinsert` preserves all-values-dicts when the inserted value is one. -/
lemma allValuesAreDicts_dinsert :
    ∀ (es : List (String × PyVal)) (k : String) (x : PyVal),
      allValuesAreDicts es = true → x.isDict = true →
      allValuesAreDicts (dinsert es k x) = true := by
  intro es
  induction es with
  | nil => intro k x _ hx; simp [dinsert, allValuesAreDicts, hx]
  | cons e rest ih =>
    intro k x h hx
    obtain ⟨k0, v0⟩ := e
    simp only [allValuesAreDicts, Bool.and_eq_true] at h
    rw [dinsert]
    by_cases hk : k0 = k
    · rw [if_pos hk]
      simp [allValuesAreDicts, hx, h.2]
    · rw [if_neg hk]
      simp [allValuesAreDicts, h.1, ih k x h.2 hx]

/-- A lookup in an all-values-dicts entry list yields a dict. -/
lemma allValuesAreDicts_lookup :
    ∀ (es : List (String × PyVal)), allValuesAreDicts es = true →
      ∀ q v, dlookup es q = some v → v.isDict = true := by
  intro es
  induction es with
  | nil => intro _ q v hv; cases hv
  | cons e rest ih =>
    intro h q v hv
    obtain ⟨k, w⟩ := e
    simp only [allValuesAreDicts, Bool.and_eq_true] at h
    rw [dlookup] at hv
    by_cases hk : k = q
    · rw [if_pos hk] at hv
      cases hv
      exact h.1
    · rw [if_neg hk] at hv
      exact ih h.2 q v hv

/-- The `add_dir` walk sends dicts to dicts. -/
lemma addDirGo_isDict (ps : List String) (v : PyVal) (h : v.isDict = true) :
    (addDirGo v ps).isDict = true := by
  cases v with
  | dict es => cases ps <;> simp [addDirGo, PyVal.isDict]
  | str s => simp [PyVal.isDict] at h
  | bytes b => simp [PyVal.isDict] at h

/-- The `add_file` walk sends dicts to dicts. -/
lemma addFileGo_isDict (ps : List String) (v : PyVal) (d : List Nat)
    (h : v.isDict = true) : (addFileGo v ps d).isDict = true := by
  cases v with
  | dict es =>
    match ps with
    | [] => simpa [addFileGo] using h
    | [p] => simp [addFileGo, PyVal.isDict]
    | p :: q :: ps => simp [addFileGo, PyVal.isDict]
  | str s => simp [PyVal.isDict] at h
  | bytes b => simp [PyVal.isDict] at h

/-- `add_dir` preserves the top-level all-values-dicts invariant. -/
lemma add_dir_preserves :
    ∀ (es : List (String × PyVal)) (path : String),
      allValuesAreDicts es = true →
      ∃ es2, add_dir (PyVal.dict es) path = PyVal.dict es2 ∧
        allValuesAreDicts es2 = true := by
  intro es path h
  rw [add_dir]
  cases hps : pySplitSlash path with
  | nil => exact ⟨es, rfl, h⟩
  | cons p ps =>
    rw [addDirGo]
    refine ⟨_, rfl, ?_⟩
    apply allValuesAreDicts_dinsert es p _ h
    apply addDirGo_isDict
    cases hv : dlookup es p with
    | none => rfl
    | some c => exact allValuesAreDicts_lookup es h p c hv

/-- `add_file` preserves the top-level all-values-dicts invariant. -/
lemma add_file_preserves :
    ∀ (es : List (String × PyVal)) (path : String) (d : List Nat),
      allValuesAreDicts es = true →
      ∃ es2, add_file (PyVal.dict es) path d = PyVal.dict es2 ∧
        allValuesAreDicts es2 = true := by
  intro es path d h
  rw [add_file]
  match hps : pySplitSlash path with
  | [] => exact ⟨es, rfl, h⟩
  | [p] =>
    rw [addFileGo]
    exact ⟨_, rfl, allValuesAreDicts_dinsert es p _ h rfl⟩
  | p :: q :: ps =>
    rw [addFileGo]
    refine ⟨_, rfl, ?_⟩
    apply allValuesAreDicts_dinsert es p _ h
    apply addFileGo_isDict
    cases hv : dlookup es p with
    | none => rfl
    | some c => exact allValuesAreDicts_lookup es h p c hv

/-- A dict all of whose values are dicts is never a file node: its `'type'`
entry, if any, is a dict, not the string `'file'`. -/
lemma isFileNode_of_allValuesAreDicts (es : List (String × PyVal))
    (h : allValuesAreDicts es = true) : isFileNode (PyVal.dict es) = false := by
  rw [isFileNode]
  cases hv : dlookup es "type" with
  | none => rfl
  | some v =>
    have hd := allValuesAreDicts_lookup es h "type" v hv
    cases v with
    | dict es2 => rfl
    | str s => simp [PyVal.isDict] at hd
    | bytes b => simp [PyVal.isDict] at hd

/-- Whatever the archive contains, the loader's root is a dict and not a
file node — the hypotheses under which the working-directory invariant and
the clamped `..` behavior were proved. -/
lemma load_vfs_from_zip_root_ok (entries : List (String × List Nat)) :
    (load_vfs_from_zip entries).isDict = true
    ∧ isFileNode (load_vfs_from_zip entries) = false := by
  suffices hmain : ∃ es, load_vfs_from_zip entries = PyVal.dict es ∧
      allValuesAreDicts es = true by
    obtain ⟨es, he, hv⟩ := hmain
    rw [he]
    exact ⟨rfl, isFileNode_of_allValuesAreDicts es hv⟩
  rw [load_vfs_from_zip]
  suffices hgen : ∀ (l : List (String × List Nat))
      (es : List (String × PyVal)), allValuesAreDicts es = true →
      ∃ es2,
        l.foldl
          (fun v e =>
            if endsWithSlash e.1 then add_dir v (rstripSlashes e.1)
            else add_file v e.1 e.2)
          (PyVal.dict es) = PyVal.dict es2 ∧
        allValuesAreDicts es2 = true by
    exact hgen entries [] rfl
  intro l
  induction l with
  | nil => intro es h; exact ⟨es, rfl, h⟩
  | cons e rest ih =>
    intro es h
    rw [List.foldl_cons]
    by_cases he : endsWithSlash e.1 = true
    · rw [if_pos he]
      obtain ⟨es2, heq, h2⟩ := add_dir_preserves es (rstripSlashes e.1) h
      rw [heq]
      exact ih es2 h2
    · rw [if_neg he]
      obtain ⟨es2, heq, h2⟩ := add_file_preserves es e.1 e.2 h
      rw [heq]
      exact ih es2 h2

end ShellEmu

